import Mathlib

/-!
Verification development for the oxt-api staking dashboard core.

Shallow embedding of:
- the namespaced cache service and its global registry (cache.js);
- the APR calculator service over BigInt arithmetic (aprCalculator.js),
  BigInt modelled as Int with truncating division (all operands that the
  claims touch are non-negative, where Int division agrees with BigInt);
- the APY calculator (apy.js), JS floating point idealised over ℚ;
- the delegator ranking service (rankingService.js);
- the Gini-coefficient and histogram-bucket helpers (routes/stats.js).

JS Map objects are modelled as association lists in insertion order with
unique keys; timestamps in milliseconds are modelled as Int.
-/

/-- Lookup in a JS Map modelled as an association list: first binding wins. -/
def mapGet {β : Type} (l : List (String × β)) (k : String) : Option β :=
  match l with
  | [] => none
  | p :: rest => if p.1 = k then some p.2 else mapGet rest k

/-- JS Map.set: replace the binding in place if the key exists, else append. -/
def mapSet {β : Type} (l : List (String × β)) (k : String) (v : β) :
    List (String × β) :=
  match l with
  | [] => [(k, v)]
  | p :: rest => if p.1 = k then (k, v) :: rest else p :: mapSet rest k v

/-- JS Map.delete: remove the binding of the key, if present. -/
def mapDelete {β : Type} (l : List (String × β)) (k : String) :
    List (String × β) :=
  match l with
  | [] => []
  | p :: rest => if p.1 = k then rest else p :: mapDelete rest k

/-- A cache entry, as built by CacheService.set:
value, creation timestamp, ttl in ms, last-access timestamp. -/
structure CacheEntry (α : Type) where
  value : α
  timestamp : Int
  ttl : Int
  lastAccessed : Int
deriving DecidableEq, Repr

/-- State of one CacheService instance. The constructor creates a fresh,
instance-private Map (this.cache = new Map()). -/
structure CacheState (α : Type) where
  ns : String
  cache : List (String × CacheEntry α)
  defaultTTL : Int
  maxSize : Nat
deriving DecidableEq, Repr

namespace CacheService

/-- CacheService constructor: fresh empty map, env-supplied defaults. -/
def mk (α : Type) (ns : String) (defaultTTL : Int) (maxSize : Nat) :
    CacheState α :=
  ⟨ns, [], defaultTTL, maxSize⟩

/-- CacheService._getKey: namespace-prefixed key. -/
def getKey (ns k : String) : String :=
  ns ++ ":" ++ k

/-- The loop body of CacheService._evictLRU: scan the entries in order,
tracking the best (oldest) key seen, starting from bestTime = Date.now(). -/
def findOldest {α : Type} (l : List (String × CacheEntry α))
    (bestKey : Option String) (bestTime : Int) : Option String :=
  match l with
  | [] => bestKey
  | p :: rest =>
      if p.2.lastAccessed < bestTime then findOldest rest (some p.1) p.2.lastAccessed
      else findOldest rest bestKey bestTime

/-- CacheService._evictLRU at instant now: delete the entry found by the
scan, or do nothing when the scan found none. -/
def evictLRU {α : Type} (now : Int) (s : CacheState α) : CacheState α :=
  match findOldest s.cache none now with
  | some k => { s with cache := mapDelete s.cache k }
  | none => s

/-- CacheService.set at instant now: evict once if size ≥ maxSize, then
insert the new entry under the namespaced key. -/
def set {α : Type} (s : CacheState α) (now : Int) (k : String) (v : α)
    (ttl : Int) : CacheState α :=
  let s1 := if s.cache.length ≥ s.maxSize then evictLRU now s else s
  { s1 with cache := mapSet s1.cache (getKey s.ns k) ⟨v, now, ttl, now⟩ }

/-- CacheService.get at instant now: absent on a miss; lazily delete and
report absent when now - timestamp > ttl; on a hit refresh lastAccessed
and return the value. Returns the result together with the new state. -/
def get {α : Type} (s : CacheState α) (now : Int) (k : String) :
    Option α × CacheState α :=
  match mapGet s.cache (getKey s.ns k) with
  | none => (none, s)
  | some e =>
      if now - e.timestamp > e.ttl then
        (none, { s with cache := mapDelete s.cache (getKey s.ns k) })
      else
        (e.value,
         { s with cache := mapSet s.cache (getKey s.ns k)
                    { e with lastAccessed := now } })

end CacheService

/-- The CacheManager registry: namespace → CacheService instance. -/
def Manager (α : Type) : Type :=
  List (String × CacheState α)

namespace CacheManager

/-- CacheManager.getCache: return the existing instance for the namespace
or create and register a fresh one (with env defaults). -/
def getCache {α : Type} (m : Manager α) (ns : String) (defaultTTL : Int)
    (maxSize : Nat) : CacheState α × Manager α :=
  match mapGet m ns with
  | some s => (s, m)
  | none =>
      (CacheService.mk α ns defaultTTL maxSize,
       mapSet m ns (CacheService.mk α ns defaultTTL maxSize))

/-- A set issued through the registry: fetch (or create) the namespace's
instance, run CacheService.set on it, store the updated instance back. -/
def managerSet {α : Type} (m : Manager α) (ns : String) (now : Int)
    (k : String) (v : α) (ttl defaultTTL : Int) (maxSize : Nat) : Manager α :=
  let p := getCache m ns defaultTTL maxSize
  mapSet p.2 ns (CacheService.set p.1 now k v ttl)

end CacheManager

namespace APRCalculatorService

/-- config.BLOCKS_PER_YEAR_FAST for the 1 s block time. -/
def BLOCKS_PER_YEAR_FAST : Int := 31536000

/-- config.BLOCKS_PER_YEAR_SLOW for the 5 s block time. -/
def BLOCKS_PER_YEAR_SLOW : Int := 6307200

/-- config.DEFAULT_COMMISSION_RATE in basis points. -/
def DEFAULT_COMMISSION_RATE : Int := 500

/-- Result of calculateAPRFast / calculateAPRSlow. aprBasisPoints is the
integer the JS divides by 100 to print; effectiveRewardsPerBlock and
commissionUsed are the internal quantities the JS computes (and logs)
that determine the output. -/
structure APRResult where
  aprBasisPoints : Int
  delegatorAnnualRewards : Int
  delegatorShare : Int
  blocksPerYear : Int
  calculationMethod : String
  effectiveRewardsPerBlock : Int
  commissionUsed : Int
deriving DecidableEq, Repr

/-- Core of calculateAPRFast and calculateAPRSlow, which differ only in
the blocks-per-year constant. Mirrors the BigInt computation:
inflation fallback when validatorRewards is 0n, commission sanitisation
(JS 0n is falsy, so 0 falls back to the default; values above 10000 are
replaced by the default), then share / reward / apr arithmetic with
truncating division. -/
def calculateAPRCore (blocksPerYear validatorStaking validatorRewards
    commissionRate delegatorStake : Int) : APRResult :=
  let effectiveRewards :=
    if validatorRewards = 0 then
      validatorStaking * 500 / 10000 / blocksPerYear
    else validatorRewards
  let calculationMethod :=
    if validatorRewards = 0 then "estimated" else "historical"
  let totalStaking := validatorStaking
  let delegatorShare := delegatorStake * 10000 / totalStaking
  let estimatedAnnualRewards := effectiveRewards * blocksPerYear
  let commission0 :=
    if commissionRate = 0 then DEFAULT_COMMISSION_RATE else commissionRate
  let commission :=
    if commission0 > 10000 then DEFAULT_COMMISSION_RATE else commission0
  let delegatorRewardRate := 10000 - commission
  let delegatorAnnualRewards :=
    estimatedAnnualRewards * delegatorShare * delegatorRewardRate
      / (10000 * 10000)
  let aprBasisPoints :=
    if delegatorStake > 0 then delegatorAnnualRewards * 10000 / delegatorStake
    else 0
  { aprBasisPoints := aprBasisPoints
    delegatorAnnualRewards := delegatorAnnualRewards
    delegatorShare := delegatorShare
    blocksPerYear := blocksPerYear
    calculationMethod := calculationMethod
    effectiveRewardsPerBlock := effectiveRewards
    commissionUsed := commission }

/-- calculateAPRFast: 1 s block time. -/
def calculateAPRFast (validatorStaking validatorRewards commissionRate
    delegatorStake : Int) : APRResult :=
  calculateAPRCore BLOCKS_PER_YEAR_FAST validatorStaking validatorRewards
    commissionRate delegatorStake

/-- calculateAPRSlow: 5 s block time. -/
def calculateAPRSlow (validatorStaking validatorRewards commissionRate
    delegatorStake : Int) : APRResult :=
  calculateAPRCore BLOCKS_PER_YEAR_SLOW validatorStaking validatorRewards
    commissionRate delegatorStake

/-- formatCommissionRate, reduced to the basisPoints field it reports:
a falsy (0) rate falls back to the default, a rate above 10000 is
replaced by the default, otherwise the rate is reported as supplied. -/
def formatCommissionRateBp (commissionRate : Int) : Int :=
  let r := if commissionRate = 0 then DEFAULT_COMMISSION_RATE else commissionRate
  if r > 10000 then DEFAULT_COMMISSION_RATE else r

end APRCalculatorService

namespace APYCalculatorService

/-- APYCalculatorService.calculateAPR: simple interest, guarded against
non-positive totalStaked. JS floating point idealised over ℚ. -/
def calculateAPR (dailyRewards totalStaked : ℚ) : ℚ :=
  if totalStaked ≤ 0 then 0
  else dailyRewards / totalStaked * 365 * 100

/-- APYCalculatorService.calculateAPY: daily compounding, guarded against
non-positive totalStaked. compoundingFrequency defaults to 365. -/
def calculateAPY (dailyRewards totalStaked : ℚ)
    (compoundingFrequency : ℕ) : ℚ :=
  if totalStaked ≤ 0 then 0
  else
    let dailyRate := dailyRewards / totalStaked
    let periodicRate := dailyRate / ((compoundingFrequency : ℚ) / 365)
    ((1 + periodicRate) ^ compoundingFrequency - 1) * 100

end APYCalculatorService

namespace DelegatorRankingService

/-- The result of getDelegatorRank when the delegator has positive stake. -/
structure RankResult where
  rank : Nat
  totalDelegators : Nat
  percentile : ℚ
deriving DecidableEq, Repr

/-- DelegatorRankingService.getDelegatorRank over the aggregated
delegator → total-stake map: zero/absent stake yields the sentinel
(none, JS rank: null); otherwise rank starts at 1 and is incremented
once per map entry with strictly greater stake, and the percentile is
(size - rank + 1) / size * 100. -/
def getDelegatorRank (dmap : List (String × Int)) (addr : String) :
    Option RankResult :=
  let stake := (mapGet dmap addr).getD 0
  if stake = 0 then none
  else
    let rank := 1 + (dmap.filter (fun p => p.2 > stake)).length
    some { rank := rank
           totalDelegators := dmap.length
           percentile :=
             ((dmap.length : ℚ) - rank + 1) / (dmap.length : ℚ) * 100 }

end DelegatorRankingService

namespace Stats

/-- calculateGini from routes/stats.js: sort ascending, accumulate
(2(i+1) - n - 1) * sorted[i] over the 0-based loop index i, divide by
n * sum; 0 for an empty list or a zero sum. -/
def calculateGini (values : List ℚ) : ℚ :=
  if values = [] then 0
  else
    let sorted := values.mergeSort (fun a b => a ≤ b)
    let n := sorted.length
    let s := sorted.sum
    if s = 0 then 0
    else
      (∑ i ∈ Finset.range n, (2 * ((i : ℚ) + 1) - (n : ℚ) - 1) * sorted.getD i 0)
        / ((n : ℚ) * s)

/-- One histogram bucket as built by createDistributionBuckets. -/
structure Bucket where
  lo : ℚ
  hi : ℚ
  count : Nat
  percentage : ℚ
deriving DecidableEq, Repr

/-- Minimum of a non-empty list (Math.min spread over the values). -/
def listMin (values : List ℚ) : ℚ :=
  match values with
  | [] => 0
  | x :: xs => xs.foldl min x

/-- Maximum of a non-empty list (Math.max spread over the values). -/
def listMax (values : List ℚ) : ℚ :=
  match values with
  | [] => 0
  | x :: xs => xs.foldl max x

/-- The bucket index of one value: floor((value - min) / bucketSize)
clamped into the last bucket. Only meaningful when bucketSize ≠ 0. -/
def bucketIndex (mn bucketSize : ℚ) (bucketCount : Nat) (v : ℚ) : Nat :=
  min (Int.toNat ⌊(v - mn) / bucketSize⌋) (bucketCount - 1)

/-- createDistributionBuckets from routes/stats.js, with its failure mode
made explicit: when max = min the JS bucketSize is 0, every membership
test computes Math.floor(0/0) = NaN as the array index, and
buckets[NaN].count++ throws a TypeError — modelled as none. On the
non-degenerate path: min(10, length) equal-width buckets, each value
counted into exactly one bucket, empty buckets dropped, percentage
shares attached. The empty list returns the JS early-exit []. -/
def createDistributionBuckets (values : List ℚ) : Option (List Bucket) :=
  if values = [] then some []
  else
    let mn := listMin values
    let mx := listMax values
    let bucketCount := min 10 values.length
    let bucketSize := (mx - mn) / (bucketCount : ℚ)
    if bucketSize = 0 then none
    else
      some (((List.range bucketCount).map (fun i =>
        let c := (values.filter
          (fun v => bucketIndex mn bucketSize bucketCount v = i)).length
        { lo := mn + (i : ℚ) * bucketSize
          hi := mn + ((i : ℚ) + 1) * bucketSize
          count := c
          percentage := (c : ℚ) / (values.length : ℚ) * 100 : Bucket })).filter
        (fun b => b.count > 0))

end Stats

/-! ### Association-list lemmas -/

theorem mapGet_mapSet_self {β : Type} (l : List (String × β)) (k : String) (v : β) :
    mapGet (mapSet l k v) k = some v := by
  induction l with
  | nil => simp [mapSet, mapGet]
  | cons p rest ih =>
      by_cases h : p.1 = k
      · simp [mapSet, mapGet, h]
      · simp [mapSet, mapGet, h, ih]

theorem mapGet_mapSet_ne {β : Type} (l : List (String × β)) (k k2 : String) (v : β)
    (h : k2 ≠ k) : mapGet (mapSet l k v) k2 = mapGet l k2 := by
  induction l with
  | nil => simp only [mapSet, mapGet, if_neg (Ne.symm h)]
  | cons p rest ih =>
      by_cases hp : p.1 = k
      · subst hp
        simp only [mapSet, if_pos rfl, mapGet, if_neg (Ne.symm h)]
      · simp only [mapSet, if_neg hp, mapGet]
        by_cases hk2 : p.1 = k2
        · simp [hk2]
        · simp [hk2, ih]

theorem mapSet_length_le {β : Type} (l : List (String × β)) (k : String) (v : β) :
    (mapSet l k v).length ≤ l.length + 1 := by
  induction l with
  | nil => simp [mapSet]
  | cons p rest ih =>
      by_cases h : p.1 = k
      · simp [mapSet, h]
      · simp only [mapSet, if_neg h, List.length_cons]
        omega

theorem mapDelete_length {β : Type} (l : List (String × β)) (k : String)
    (h : mapGet l k ≠ none) : (mapDelete l k).length + 1 = l.length := by
  induction l with
  | nil => simp [mapGet] at h
  | cons p rest ih =>
      by_cases hp : p.1 = k
      · simp [mapDelete, hp]
      · simp only [mapGet, if_neg hp] at h
        simp only [mapDelete, if_neg hp, List.length_cons]
        have := ih h
        omega


theorem mapGet_ne_none_of_mem {β : Type} (l : List (String × β)) (p : String × β)
    (hp : p ∈ l) : mapGet l p.1 ≠ none := by
  induction l with
  | nil => cases hp
  | cons q rest ih =>
      rcases List.mem_cons.mp hp with rfl | hmem
      · simp [mapGet]
      · by_cases hq : q.1 = p.1
        · simp [mapGet, hq]
        · simp only [mapGet, if_neg hq]
          exact ih hmem

theorem mapGet_eq_none_of_not_mem {β : Type} (l : List (String × β)) (k : String)
    (h : k ∉ l.map Prod.fst) : mapGet l k = none := by
  induction l with
  | nil => rfl
  | cons p rest ih =>
      simp only [List.map_cons, List.mem_cons] at h
      push_neg at h
      simp only [mapGet, if_neg (Ne.symm h.1)]
      exact ih h.2

theorem mapGet_mapDelete_self {β : Type} (l : List (String × β)) (k : String)
    (hnd : (l.map Prod.fst).Nodup) : mapGet (mapDelete l k) k = none := by
  induction l with
  | nil => rfl
  | cons p rest ih =>
      simp only [List.map_cons, List.nodup_cons] at hnd
      by_cases hp : p.1 = k
      · subst hp
        simp only [mapDelete, if_pos rfl]
        exact mapGet_eq_none_of_not_mem rest p.1 hnd.1
      · simp only [mapDelete, if_neg hp, mapGet, if_neg hp]
        exact ih hnd.2

theorem mapGet_of_mem_nodup {β : Type} (l : List (String × β)) (p : String × β)
    (hnd : (l.map Prod.fst).Nodup) (hp : p ∈ l) : mapGet l p.1 = some p.2 := by
  induction l with
  | nil => cases hp
  | cons q rest ih =>
      simp only [List.map_cons, List.nodup_cons] at hnd
      rcases List.mem_cons.mp hp with rfl | hmem
      · simp [mapGet]
      · by_cases hq : q.1 = p.1
        · exact absurd (hq ▸ (List.mem_map.mpr ⟨p, hmem, rfl⟩)) hnd.1
        · simp only [mapGet, if_neg hq]
          exact ih hnd.2 hmem

/-! ### LRU scan lemmas -/

theorem findOldest_spec {α : Type} (l : List (String × CacheEntry α))
    (bk : Option String) (bt : Int) :
    (CacheService.findOldest l bk bt = bk ∧ ∀ p ∈ l, bt ≤ p.2.lastAccessed) ∨
    (∃ p ∈ l, CacheService.findOldest l bk bt = some p.1 ∧ p.2.lastAccessed < bt ∧
      ∀ q ∈ l, p.2.lastAccessed ≤ q.2.lastAccessed ∨ bt ≤ q.2.lastAccessed) := by
  induction l generalizing bk bt with
  | nil => exact Or.inl ⟨rfl, by simp⟩
  | cons p rest ih =>
      by_cases h : p.2.lastAccessed < bt
      · rcases ih (some p.1) p.2.lastAccessed with ⟨heq, hall⟩ | ⟨q, hq, heq, hlt, hall⟩
        · refine Or.inr ⟨p, List.mem_cons_self _ _, ?_, h, ?_⟩
          · simpa [CacheService.findOldest, h] using heq
          · intro r hr
            rcases List.mem_cons.mp hr with rfl | hr2
            · exact Or.inl le_rfl
            · exact Or.inl (hall r hr2)
        · refine Or.inr ⟨q, List.mem_cons_of_mem _ hq, ?_, lt_trans hlt h, ?_⟩
          · simpa [CacheService.findOldest, h] using heq
          · intro r hr
            rcases List.mem_cons.mp hr with rfl | hr2
            · exact Or.inl (le_of_lt hlt)
            · rcases hall r hr2 with h1 | h2
              · exact Or.inl h1
              · exact Or.inl (le_trans (le_of_lt hlt) h2)
      · rcases ih bk bt with ⟨heq, hall⟩ | ⟨q, hq, heq, hlt, hall⟩
        · refine Or.inl ⟨by simpa [CacheService.findOldest, h] using heq, ?_⟩
          intro r hr
          rcases List.mem_cons.mp hr with rfl | hr2
          · exact le_of_not_lt h
          · exact hall r hr2
        · refine Or.inr ⟨q, List.mem_cons_of_mem _ hq,
            by simpa [CacheService.findOldest, h] using heq, hlt, ?_⟩
          intro r hr
          rcases List.mem_cons.mp hr with rfl | hr2
          · exact Or.inr (le_of_not_lt h)
          · exact hall r hr2

theorem findOldest_min {α : Type} (l : List (String × CacheEntry α)) (now : Int)
    (hne : l ≠ []) (hall : ∀ p ∈ l, p.2.lastAccessed < now) :
    ∃ p ∈ l, CacheService.findOldest l none now = some p.1 ∧
      ∀ q ∈ l, p.2.lastAccessed ≤ q.2.lastAccessed := by
  rcases findOldest_spec l none now with ⟨_, hge⟩ | ⟨p, hp, heq, _, hmin⟩
  · obtain ⟨p, hp⟩ := List.exists_mem_of_ne_nil l hne
    exact absurd (hge p hp) (not_le.mpr (hall p hp))
  · exact ⟨p, hp, heq,
      fun q hq => (hmin q hq).resolve_right (not_le.mpr (hall q hq))⟩

/-! ### Cache state projection lemmas -/

theorem evictLRU_ns {α : Type} (now : Int) (s : CacheState α) :
    (CacheService.evictLRU now s).ns = s.ns := by
  unfold CacheService.evictLRU
  split <;> rfl

theorem evictLRU_fields {α : Type} (now : Int) (s : CacheState α) :
    (CacheService.evictLRU now s).maxSize = s.maxSize ∧
    (CacheService.evictLRU now s).defaultTTL = s.defaultTTL := by
  unfold CacheService.evictLRU
  split <;> exact ⟨rfl, rfl⟩

theorem set_ns {α : Type} (s : CacheState α) (now : Int) (k : String) (v : α)
    (ttl : Int) : (CacheService.set s now k v ttl).ns = s.ns := by
  unfold CacheService.set
  by_cases h : s.cache.length ≥ s.maxSize
  · simp only [if_pos h]
    exact evictLRU_ns now s
  · simp only [if_neg h]

theorem set_cache {α : Type} (s : CacheState α) (now : Int) (k : String) (v : α)
    (ttl : Int) :
    (CacheService.set s now k v ttl).cache =
      mapSet (if s.cache.length ≥ s.maxSize then CacheService.evictLRU now s
              else s).cache (CacheService.getKey s.ns k) ⟨v, now, ttl, now⟩ :=
  rfl

/-- C1: the claim as stated fails on the code. A store at capacity whose
single entry was last accessed at the current millisecond: the eviction
scan starts from bestTime = Date.now() and uses a strict comparison, so
it finds nothing, evicts nothing, and the insertion pushes the entry
count to 2 > maxSize = 1. -/
theorem c1_set_can_exceed_maxSize_cex :
    (let s : CacheState Nat := ⟨"d", [("d:a", ⟨0, 0, 100, 0⟩)], 30000, 1⟩
     s.cache.length ≥ s.maxSize ∧
     CacheService.evictLRU 0 s = s ∧
     (CacheService.set s 0 "b" 7 100).cache.length = 2 ∧
     ¬ (CacheService.set s 0 "b" 7 100).cache.length ≤ s.maxSize) := by
  decide

/-- C1 (amended): provided maxSize ≥ 1 and every entry was last accessed
strictly before the current instant (which holds whenever the clock has
advanced since the store was last touched), a set on a store holding at
most maxSize entries keeps the count at most maxSize, and at capacity the
eviction step removes exactly one entry, one whose lastAccessed is oldest. -/
theorem c1_lru_eviction_amended {α : Type} (s : CacheState α) (now : Int)
    (k : String) (v : α) (ttl : Int)
    (hmax : 1 ≤ s.maxSize)
    (hla : ∀ p ∈ s.cache, p.2.lastAccessed < now)
    (hsz : s.cache.length ≤ s.maxSize) :
    (CacheService.set s now k v ttl).cache.length ≤ s.maxSize ∧
    (s.maxSize ≤ s.cache.length →
      ∃ p ∈ s.cache, (∀ q ∈ s.cache, p.2.lastAccessed ≤ q.2.lastAccessed) ∧
        (CacheService.evictLRU now s).cache = mapDelete s.cache p.1 ∧
        (CacheService.evictLRU now s).cache.length + 1 = s.cache.length) := by
  by_cases hcap : s.cache.length ≥ s.maxSize
  · have hne : s.cache ≠ [] := by
      intro h
      rw [h] at hcap
      simp only [List.length_nil] at hcap
      omega
    obtain ⟨p, hp, heq, hmin⟩ := findOldest_min s.cache now hne hla
    have hev : (CacheService.evictLRU now s).cache = mapDelete s.cache p.1 := by
      unfold CacheService.evictLRU
      rw [heq]
    have hpres : mapGet s.cache p.1 ≠ none := mapGet_ne_none_of_mem s.cache p hp
    have hdel : (mapDelete s.cache p.1).length + 1 = s.cache.length :=
      mapDelete_length s.cache p.1 hpres
    constructor
    · rw [set_cache, if_pos hcap]
      have h1 := mapSet_length_le (CacheService.evictLRU now s).cache
        (CacheService.getKey s.ns k) (⟨v, now, ttl, now⟩ : CacheEntry α)
      rw [hev] at h1 ⊢
      omega
    · intro _
      refine ⟨p, hp, hmin, hev, ?_⟩
      rw [hev]
      exact hdel
  · constructor
    · rw [set_cache, if_neg hcap]
      have h1 := mapSet_length_le s.cache (CacheService.getKey s.ns k)
        (⟨v, now, ttl, now⟩ : CacheEntry α)
      omega
    · intro h
      exact absurd h hcap

/-- Witness for the amended C1 theorem at a concrete store. -/
theorem c1_lru_eviction_amended_witness :
    (let s : CacheState Nat := ⟨"d", [("d:a", ⟨0, 0, 100, 0⟩)], 30000, 1⟩
     (1 ≤ s.maxSize ∧ (∀ p ∈ s.cache, p.2.lastAccessed < 5) ∧
      s.cache.length ≤ s.maxSize) ∧
     ((CacheService.set s 5 "b" 7 100).cache.length ≤ s.maxSize ∧
      (s.maxSize ≤ s.cache.length →
        ∃ p ∈ s.cache, (∀ q ∈ s.cache, p.2.lastAccessed ≤ q.2.lastAccessed) ∧
          (CacheService.evictLRU 5 s).cache = mapDelete s.cache p.1 ∧
          (CacheService.evictLRU 5 s).cache.length + 1 = s.cache.length))) :=
  ⟨by decide,
   c1_lru_eviction_amended _ 5 "b" 7 100 (by decide) (by decide) (by decide)⟩

/-- C2: the get contract. get never fails (it is a total function here and
in the source returns null rather than throwing): a key that was never
set is absent; an entry with now - createdAt > ttl is deleted and
reported absent; otherwise the stored value is returned and the entry's
lastAccessed is refreshed to now. In particular a set with ttl = 100
followed by an immediate get returns the value, and a get 150 ms later
is absent. -/
theorem c2_get_semantics {α : Type} (s : CacheState α) (now t : Int)
    (k : String) (v : α) (hnd : (s.cache.map Prod.fst).Nodup) :
    (CacheService.get (CacheService.set s t k v 100) t k).1 = some v ∧
    (CacheService.get (CacheService.set s t k v 100) (t + 150) k).1 = none ∧
    (mapGet s.cache (CacheService.getKey s.ns k) = none →
      (CacheService.get s now k).1 = none ∧ (CacheService.get s now k).2 = s) ∧
    (∀ e : CacheEntry α, mapGet s.cache (CacheService.getKey s.ns k) = some e →
      now - e.timestamp > e.ttl →
        (CacheService.get s now k).1 = none ∧
        mapGet (CacheService.get s now k).2.cache
          (CacheService.getKey s.ns k) = none) ∧
    (∀ e : CacheEntry α, mapGet s.cache (CacheService.getKey s.ns k) = some e →
      ¬ now - e.timestamp > e.ttl →
        (CacheService.get s now k).1 = some e.value ∧
        mapGet (CacheService.get s now k).2.cache
          (CacheService.getKey s.ns k) =
          some { e with lastAccessed := now }) := by
  have hset : mapGet (CacheService.set s t k v 100).cache
      (CacheService.getKey (CacheService.set s t k v 100).ns k) =
      some (⟨v, t, 100, t⟩ : CacheEntry α) := by
    rw [set_ns, set_cache]
    exact mapGet_mapSet_self _ _ _
  refine ⟨?_, ?_, ?_, ?_, ?_⟩
  · simp only [CacheService.get, hset]
    norm_num
  · simp only [CacheService.get, hset]
    norm_num
  · intro h
    simp only [CacheService.get, h]
    exact ⟨trivial, trivial⟩
  · intro e he hexp
    simp only [CacheService.get, he, if_pos hexp]
    exact ⟨trivial, mapGet_mapDelete_self s.cache (CacheService.getKey s.ns k) hnd⟩
  · intro e he hexp
    simp only [CacheService.get, he, if_neg hexp]
    exact ⟨trivial, mapGet_mapSet_self _ _ _⟩

/-- Witness for the C2 theorem at a concrete store and clock. -/
theorem c2_get_semantics_witness :
    (let s : CacheState Nat := ⟨"n", [("n:x", ⟨9, 0, 50, 0⟩)], 30000, 10⟩
     (s.cache.map Prod.fst).Nodup ∧
     ((CacheService.get (CacheService.set s 20 "k" 3 100) 20 "k").1 = some 3 ∧
      (CacheService.get (CacheService.set s 20 "k" 3 100) (20 + 150) "k").1 = none ∧
      (mapGet s.cache (CacheService.getKey s.ns "k") = none →
        (CacheService.get s 40 "k").1 = none ∧ (CacheService.get s 40 "k").2 = s) ∧
      (∀ e : CacheEntry Nat, mapGet s.cache (CacheService.getKey s.ns "k") = some e →
        40 - e.timestamp > e.ttl →
          (CacheService.get s 40 "k").1 = none ∧
          mapGet (CacheService.get s 40 "k").2.cache
            (CacheService.getKey s.ns "k") = none) ∧
      (∀ e : CacheEntry Nat, mapGet s.cache (CacheService.getKey s.ns "k") = some e →
        ¬ 40 - e.timestamp > e.ttl →
          (CacheService.get s 40 "k").1 = some e.value ∧
          mapGet (CacheService.get s 40 "k").2.cache
            (CacheService.getKey s.ns "k") =
            some { e with lastAccessed := 40 }))) :=
  ⟨by decide, c2_get_semantics _ 40 20 "k" 3 (by decide)⟩

/-- C3: the claim fails on the code. CacheService instances do not share a
backing map: each constructor creates a private Map, and the registry
keeps one instance per namespace. Store a at namespace capacity (2 of 2)
and store b empty: a set on b sees only b's own (empty) map, evicts
nothing although the combined entry count is already at the bound, and
the combined count grows to 3. -/
theorem c3_shared_map_cex :
    (let a : CacheState Nat :=
       ⟨"a", [("a:x", ⟨1, 0, 100, 0⟩), ("a:y", ⟨2, 0, 100, 1⟩)], 30000, 2⟩
     let b : CacheState Nat := ⟨"b", [], 30000, 2⟩
     a.cache.length + b.cache.length ≥ b.maxSize ∧
     CacheService.set b 5 "k" 9 100 =
       ⟨"b", [("b:k", ⟨9, 5, 100, 5⟩)], 30000, 2⟩ ∧
     a.cache.length + (CacheService.set b 5 "k" 9 100).cache.length = 3 ∧
     ¬ a.cache.length + (CacheService.set b 5 "k" 9 100).cache.length
         ≤ b.maxSize) := by
  decide

/-- C3 (amended): each CacheService owns a private map; namespaces are
separate instances in the registry, not key prefixes inside one shared
map. A set through the registry on namespace ns leaves every other
namespace's store untouched, and its effect on ns (including its LRU
eviction and size accounting) depends only on ns's own store. -/
theorem c3_per_instance_isolation {α : Type} (m m2 : Manager α)
    (ns ns2 : String) (now : Int) (k : String) (v : α) (ttl defaultTTL : Int)
    (maxSize : Nat) (hne : ns2 ≠ ns) :
    mapGet (CacheManager.managerSet m ns now k v ttl defaultTTL maxSize) ns2 =
      mapGet m ns2 ∧
    (mapGet m2 ns = mapGet m ns →
      mapGet (CacheManager.managerSet m2 ns now k v ttl defaultTTL maxSize) ns =
      mapGet (CacheManager.managerSet m ns now k v ttl defaultTTL maxSize) ns) := by
  constructor
  · unfold CacheManager.managerSet CacheManager.getCache
    cases h : mapGet m ns with
    | some s =>
        simp only [h]
        exact mapGet_mapSet_ne m ns ns2 _ hne
    | none =>
        simp only [h]
        rw [mapGet_mapSet_ne _ ns ns2 _ hne, mapGet_mapSet_ne _ ns ns2 _ hne]
  · intro heq
    unfold CacheManager.managerSet CacheManager.getCache
    cases h : mapGet m ns with
    | some s =>
        rw [heq, h]
        simp only [mapGet_mapSet_self]
    | none =>
        rw [heq, h]
        simp only [mapGet_mapSet_self]

/-- Witness for the C3 amended theorem at concrete registries. -/
theorem c3_per_instance_isolation_witness :
    (let m : Manager Nat := [("a", ⟨"a", [("a:x", ⟨1, 0, 100, 0⟩)], 30000, 2⟩)]
     ("a" : String) ≠ "b" ∧
     (mapGet (CacheManager.managerSet m "b" 5 "k" 9 100 30000 2) "a" =
        mapGet m "a" ∧
      (mapGet ([] : Manager Nat) "b" = mapGet m "b" →
        mapGet (CacheManager.managerSet ([] : Manager Nat) "b" 5 "k" 9 100 30000 2) "b" =
        mapGet (CacheManager.managerSet m "b" 5 "k" 9 100 30000 2) "b"))) :=
  ⟨by decide, c3_per_instance_isolation _ ([] : Manager Nat) "b" "a" 5 "k" 9 100
    30000 2 (by decide)⟩

/-- C4: with a positive validator stake, a zero observed reward switches
both estimators to the inflation fallback: the per-block effective reward
is stake * 5% (500 of 10000 basis points) divided by the blocks-per-year
constant of the configured block time, and the output is tagged
"estimated"; a nonzero observed reward is used directly and tagged
"historical". -/
theorem c4_inflation_fallback (vs cr ds rw : Int) (hvs : 0 < vs)
    (hrw : rw ≠ 0) :
    ((APRCalculatorService.calculateAPRFast vs 0 cr ds).calculationMethod =
        "estimated" ∧
     (APRCalculatorService.calculateAPRFast vs 0 cr ds).effectiveRewardsPerBlock =
        vs * 500 / 10000 / APRCalculatorService.BLOCKS_PER_YEAR_FAST ∧
     (APRCalculatorService.calculateAPRSlow vs 0 cr ds).calculationMethod =
        "estimated" ∧
     (APRCalculatorService.calculateAPRSlow vs 0 cr ds).effectiveRewardsPerBlock =
        vs * 500 / 10000 / APRCalculatorService.BLOCKS_PER_YEAR_SLOW) ∧
    ((APRCalculatorService.calculateAPRFast vs rw cr ds).calculationMethod =
        "historical" ∧
     (APRCalculatorService.calculateAPRFast vs rw cr ds).effectiveRewardsPerBlock =
        rw ∧
     (APRCalculatorService.calculateAPRSlow vs rw cr ds).calculationMethod =
        "historical" ∧
     (APRCalculatorService.calculateAPRSlow vs rw cr ds).effectiveRewardsPerBlock =
        rw) := by
  simp [APRCalculatorService.calculateAPRFast, APRCalculatorService.calculateAPRSlow,
        APRCalculatorService.calculateAPRCore, hrw]

/-- Witness for the C4 theorem at a concrete validator. -/
theorem c4_inflation_fallback_witness :
    (0 : Int) < 1000000000000 ∧ (7 : Int) ≠ 0 ∧
    (((APRCalculatorService.calculateAPRFast 1000000000000 0 500 1000).calculationMethod =
        "estimated" ∧
      (APRCalculatorService.calculateAPRFast 1000000000000 0 500 1000).effectiveRewardsPerBlock =
        1000000000000 * 500 / 10000 / APRCalculatorService.BLOCKS_PER_YEAR_FAST ∧
      (APRCalculatorService.calculateAPRSlow 1000000000000 0 500 1000).calculationMethod =
        "estimated" ∧
      (APRCalculatorService.calculateAPRSlow 1000000000000 0 500 1000).effectiveRewardsPerBlock =
        1000000000000 * 500 / 10000 / APRCalculatorService.BLOCKS_PER_YEAR_SLOW) ∧
     ((APRCalculatorService.calculateAPRFast 1000000000000 7 500 1000).calculationMethod =
        "historical" ∧
      (APRCalculatorService.calculateAPRFast 1000000000000 7 500 1000).effectiveRewardsPerBlock =
        7 ∧
      (APRCalculatorService.calculateAPRSlow 1000000000000 7 500 1000).calculationMethod =
        "historical" ∧
      (APRCalculatorService.calculateAPRSlow 1000000000000 7 500 1000).effectiveRewardsPerBlock =
        7)) :=
  ⟨by decide, by decide,
   c4_inflation_fallback 1000000000000 500 1000 7 (by decide) (by decide)⟩

/-- C5: a commission rate above 10000 basis points is silently replaced by
the configured default of 500 basis points: the whole computed output
equals the output for the default rate, the commission actually applied
is 500, and the reported basis points are 500. The computation is a total
function (no exception is raised). -/
theorem c5_commission_sanitization (vs rw cr ds : Int) (hcr : cr > 10000) :
    APRCalculatorService.calculateAPRFast vs rw cr ds =
      APRCalculatorService.calculateAPRFast vs rw
        APRCalculatorService.DEFAULT_COMMISSION_RATE ds ∧
    APRCalculatorService.calculateAPRSlow vs rw cr ds =
      APRCalculatorService.calculateAPRSlow vs rw
        APRCalculatorService.DEFAULT_COMMISSION_RATE ds ∧
    (APRCalculatorService.calculateAPRFast vs rw cr ds).commissionUsed = 500 ∧
    APRCalculatorService.formatCommissionRateBp cr = 500 := by
  have hne : cr ≠ 0 := by omega
  simp [APRCalculatorService.calculateAPRFast, APRCalculatorService.calculateAPRSlow,
        APRCalculatorService.calculateAPRCore, APRCalculatorService.formatCommissionRateBp,
        APRCalculatorService.DEFAULT_COMMISSION_RATE, hne, hcr]

/-- Witness for the C5 theorem at the spec's concrete 15000 bp input. -/
theorem c5_commission_sanitization_witness :
    (15000 : Int) > 10000 ∧
    (APRCalculatorService.calculateAPRFast 1000 7 15000 900 =
       APRCalculatorService.calculateAPRFast 1000 7
         APRCalculatorService.DEFAULT_COMMISSION_RATE 900 ∧
     APRCalculatorService.calculateAPRSlow 1000 7 15000 900 =
       APRCalculatorService.calculateAPRSlow 1000 7
         APRCalculatorService.DEFAULT_COMMISSION_RATE 900 ∧
     (APRCalculatorService.calculateAPRFast 1000 7 15000 900).commissionUsed = 500 ∧
     APRCalculatorService.formatCommissionRateBp 15000 = 500) :=
  ⟨by decide, c5_commission_sanitization 1000 7 15000 900 (by decide)⟩

/-- C10: a commission rate of exactly 0 basis points is treated as absent
(JS 0n is falsy) and replaced by the default 500 basis points in both the
fast and slow calculators and in the formatted commission output, so a
genuinely zero-commission validator is computed as if it charged 5%. -/
theorem c10_zero_commission_default (vs rw ds : Int) :
    APRCalculatorService.calculateAPRFast vs rw 0 ds =
      APRCalculatorService.calculateAPRFast vs rw
        APRCalculatorService.DEFAULT_COMMISSION_RATE ds ∧
    APRCalculatorService.calculateAPRSlow vs rw 0 ds =
      APRCalculatorService.calculateAPRSlow vs rw
        APRCalculatorService.DEFAULT_COMMISSION_RATE ds ∧
    (APRCalculatorService.calculateAPRFast vs rw 0 ds).commissionUsed = 500 ∧
    APRCalculatorService.formatCommissionRateBp 0 = 500 := by
  simp [APRCalculatorService.calculateAPRFast, APRCalculatorService.calculateAPRSlow,
        APRCalculatorService.calculateAPRCore, APRCalculatorService.formatCommissionRateBp,
        APRCalculatorService.DEFAULT_COMMISSION_RATE]

/-- C6: both yield functions short-circuit to 0 for non-positive
totalStaked (no division by zero is ever performed); for positive
totalStaked, daily compounding dominates simple interest whenever
dailyReward is positive, and both yields are exactly 0 when dailyReward
is 0. -/
theorem c6_apy_dominates_apr (d t : ℚ) :
    (t ≤ 0 → APYCalculatorService.calculateAPR d t = 0 ∧
             APYCalculatorService.calculateAPY d t 365 = 0) ∧
    (0 < t → 0 < d → APYCalculatorService.calculateAPR d t ≤
                     APYCalculatorService.calculateAPY d t 365) ∧
    (0 < t → APYCalculatorService.calculateAPR 0 t = 0 ∧
             APYCalculatorService.calculateAPY 0 t 365 = 0) := by
  refine ⟨?_, ?_, ?_⟩
  · intro h
    simp [APYCalculatorService.calculateAPR, APYCalculatorService.calculateAPY, h]
  · intro ht hd
    have ht2 : ¬ t ≤ 0 := not_le.mpr ht
    simp only [APYCalculatorService.calculateAPR, APYCalculatorService.calculateAPY,
      if_neg ht2]
    have h365 : ((365 : ℕ) : ℚ) / 365 = 1 := by norm_num
    rw [h365, div_one]
    have hrpos : 0 < d / t := div_pos hd ht
    have hb : 1 + ((365 : ℕ) : ℚ) * (d / t) ≤ (1 + d / t) ^ (365 : ℕ) :=
      one_add_mul_le_pow (by linarith only [hrpos]) 365
    generalize hg : (1 + d / t) ^ (365 : ℕ) = X at hb ⊢
    push_cast at hb
    linarith only [hb]
  · intro ht
    have ht2 : ¬ t ≤ 0 := not_le.mpr ht
    simp [APYCalculatorService.calculateAPR, APYCalculatorService.calculateAPY, ht2]

/-- Witness for the C6 theorem at dailyReward = totalStaked = 1. -/
theorem c6_apy_dominates_apr_witness :
    (0 : ℚ) < 1 ∧
    APYCalculatorService.calculateAPR 1 1 ≤ APYCalculatorService.calculateAPY 1 1 365 :=
  ⟨by norm_num, (c6_apy_dominates_apr 1 1).2.1 (by norm_num) (by norm_num)⟩

/-- C7: over a delegator map with distinct addresses, a zero or absent
total stake yields the sentinel (rank null) result; otherwise the rank is
1 plus the number of map entries with strictly greater stake — equal to
the number of other delegators with strictly greater stake — the
percentile is (totalDelegators - rank + 1) / totalDelegators * 100, and a
delegator whose stake no one exceeds gets rank 1 (so all delegators tied
for the largest stake share rank 1). -/
theorem c7_delegator_rank (dmap : List (String × Int)) (addr : String)
    (stake : Int) (hnd : (dmap.map Prod.fst).Nodup) :
    ((mapGet dmap addr).getD 0 = 0 →
      DelegatorRankingService.getDelegatorRank dmap addr = none) ∧
    (mapGet dmap addr = some stake → stake ≠ 0 →
      ∃ r : DelegatorRankingService.RankResult,
        DelegatorRankingService.getDelegatorRank dmap addr = some r ∧
        r.rank = 1 + (dmap.filter (fun p => stake < p.2)).length ∧
        r.rank = 1 + (dmap.filter (fun p => p.1 ≠ addr ∧ stake < p.2)).length ∧
        r.totalDelegators = dmap.length ∧
        r.percentile =
          ((dmap.length : ℚ) - (r.rank : ℚ) + 1) / (dmap.length : ℚ) * 100 ∧
        ((∀ p ∈ dmap, p.2 ≤ stake) → r.rank = 1)) := by
  constructor
  · intro h
    simp [DelegatorRankingService.getDelegatorRank, h]
  · intro hget hne
    simp only [DelegatorRankingService.getDelegatorRank, hget, Option.getD_some,
      if_neg hne]
    refine ⟨_, rfl, rfl, ?_, rfl, rfl, ?_⟩
    · have hfc : dmap.filter (fun p => decide (stake < p.2)) =
          dmap.filter (fun p => decide (p.1 ≠ addr ∧ stake < p.2)) := by
        apply List.filter_congr
        intro p hp
        simp only [decide_eq_decide]
        constructor
        · intro hlt
          refine ⟨?_, hlt⟩
          intro haddr
          have := mapGet_of_mem_nodup dmap p hnd hp
          rw [haddr, hget] at this
          have hstake : stake = p.2 := by
            injection this
          omega
        · intro hand
          exact hand.2
      simp only [hfc]
    · intro hall
      have hnil : dmap.filter (fun p => decide (stake < p.2)) = [] := by
        rw [List.filter_eq_nil_iff]
        intro p hp
        simp only [decide_eq_true_eq, not_lt]
        exact hall p hp
      simp [hnil]

/-- Witness for the C7 theorem at a concrete three-delegator map with a
tie at the top. -/
theorem c7_delegator_rank_witness :
    (let dmap : List (String × Int) := [("a", 5), ("b", 5), ("c", 3)]
     (dmap.map Prod.fst).Nodup ∧
     (((mapGet dmap "a").getD 0 = 0 →
        DelegatorRankingService.getDelegatorRank dmap "a" = none) ∧
      (mapGet dmap "a" = some 5 → (5 : Int) ≠ 0 →
        ∃ r : DelegatorRankingService.RankResult,
          DelegatorRankingService.getDelegatorRank dmap "a" = some r ∧
          r.rank = 1 + (dmap.filter (fun p => 5 < p.2)).length ∧
          r.rank = 1 + (dmap.filter (fun p => p.1 ≠ "a" ∧ 5 < p.2)).length ∧
          r.totalDelegators = dmap.length ∧
          r.percentile =
            ((dmap.length : ℚ) - (r.rank : ℚ) + 1) / (dmap.length : ℚ) * 100 ∧
          ((∀ p ∈ dmap, p.2 ≤ 5) → r.rank = 1)))) :=
  ⟨by decide, c7_delegator_rank [("a", 5), ("b", 5), ("c", 3)] "a" 5 (by decide)⟩

/-! ### Gini helper lemmas -/

theorem getD_replicate (n i : ℕ) (c : ℚ) (h : i < n) :
    (List.replicate n c).getD i 0 = c := by
  induction n generalizing i with
  | zero => omega
  | succ m ih =>
      cases i with
      | zero => rfl
      | succ j => exact ih j (by omega)

theorem sum_range_add_one (n : ℕ) :
    (∑ i ∈ Finset.range n, ((i : ℚ) + 1)) * 2 = (n : ℚ) * ((n : ℚ) + 1) := by
  induction n with
  | zero => simp
  | succ m ih =>
      rw [Finset.sum_range_succ]
      push_cast
      rw [add_mul, ih]
      ring

theorem gini_coeff_sum (n : ℕ) :
    ∑ i ∈ Finset.range n, (2 * ((i : ℚ) + 1) - (n : ℚ) - 1) = 0 := by
  have h := sum_range_add_one n
  have hsplit : ∑ i ∈ Finset.range n, (2 * ((i : ℚ) + 1) - (n : ℚ) - 1) =
      2 * (∑ i ∈ Finset.range n, ((i : ℚ) + 1)) - (n : ℚ) * ((n : ℚ) + 1) := by
    rw [Finset.mul_sum]
    rw [show (n : ℚ) * ((n : ℚ) + 1) =
      ∑ _i ∈ Finset.range n, ((n : ℚ) + 1) by
        rw [Finset.sum_const, Finset.card_range, nsmul_eq_mul]]
    rw [← Finset.sum_sub_distrib]
    exact Finset.sum_congr rfl (fun i _ => by ring)
  rw [hsplit]
  linarith

theorem gini_replicate (n : ℕ) (c : ℚ) :
    Stats.calculateGini (List.replicate n c) = 0 := by
  simp only [Stats.calculateGini]
  by_cases hnil : List.replicate n c = []
  · rw [if_pos hnil]
  · rw [if_neg hnil]
    have hsort : (List.replicate n c).mergeSort (fun a b => decide (a ≤ b)) =
        List.replicate n c :=
      List.perm_replicate.mp (List.mergeSort_perm _ _)
    rw [hsort, List.length_replicate]
    by_cases hs : (List.replicate n c).sum = 0
    · rw [if_pos hs]
    · rw [if_neg hs]
      have hnum : ∑ i ∈ Finset.range n,
          (2 * ((i : ℚ) + 1) - (n : ℚ) - 1) * (List.replicate n c).getD i 0 = 0 := by
        have hcg : ∀ i ∈ Finset.range n,
            (2 * ((i : ℚ) + 1) - (n : ℚ) - 1) * (List.replicate n c).getD i 0 =
            (2 * ((i : ℚ) + 1) - (n : ℚ) - 1) * c := by
          intro i hi
          rw [getD_replicate n i c (Finset.mem_range.mp hi)]
        rw [Finset.sum_congr rfl hcg, ← Finset.sum_mul, gini_coeff_sum, zero_mul]
      rw [hnum, zero_div]

theorem gini_sum_zero (l : List ℚ) (h : l.sum = 0) : Stats.calculateGini l = 0 := by
  simp only [Stats.calculateGini]
  by_cases hnil : l = []
  · rw [if_pos hnil]
  · rw [if_neg hnil]
    have hs : (l.mergeSort (fun a b => decide (a ≤ b))).sum = 0 := by
      rw [(List.mergeSort_perm l _).sum_eq]
      exact h
    rw [if_pos hs]

/-- C8: calculateGini returns 0 on the empty list, on any list with sum 0
(no division by zero), and exactly 0 on every uniform list — in
particular on the spec's [100,100,100,100]. -/
theorem c8_gini_properties (l : List ℚ) (n : ℕ) (c : ℚ) (hsum : l.sum = 0) :
    Stats.calculateGini [] = 0 ∧
    Stats.calculateGini l = 0 ∧
    Stats.calculateGini (List.replicate n c) = 0 ∧
    Stats.calculateGini [100, 100, 100, 100] = 0 :=
  ⟨by simp [Stats.calculateGini], gini_sum_zero l hsum, gini_replicate n c,
   gini_replicate 4 (100 : ℚ)⟩

/-- Witness for the C8 theorem at a concrete zero-sum list. -/
theorem c8_gini_properties_witness :
    ([(0 : ℚ), 0].sum = 0) ∧
    (Stats.calculateGini [] = 0 ∧
     Stats.calculateGini [(0 : ℚ), 0] = 0 ∧
     Stats.calculateGini (List.replicate 3 (7 : ℚ)) = 0 ∧
     Stats.calculateGini [100, 100, 100, 100] = 0) :=
  ⟨by simp, c8_gini_properties [(0 : ℚ), 0] 3 7 (by simp)⟩

/-- C9: the claim fails on the code and the spec's no-throw policy is the
stated intent, so this is a defect in the code. For any non-empty list
whose values are all equal (max = min, e.g. the singleton [5] or the
uniform [100,100,100]) the bucket width is 0, the JS bucket index is
Math.floor(0/0) = NaN, and buckets[NaN].count++ throws a TypeError — the
modelled failure value none — instead of completing. The empty list still
takes the documented early exit. -/
theorem c9_bucket_uniform_throws :
    Stats.createDistributionBuckets [(5 : ℚ)] = none ∧
    Stats.createDistributionBuckets [(100 : ℚ), 100, 100] = none ∧
    Stats.createDistributionBuckets ([] : List ℚ) = some [] := by
  refine ⟨?_, ?_, ?_⟩
  · norm_num [Stats.createDistributionBuckets, Stats.listMin, Stats.listMax]
  · norm_num [Stats.createDistributionBuckets, Stats.listMin, Stats.listMax]
    intro h
    simp at h
  · simp [Stats.createDistributionBuckets]
